import Mathlib

/-!
# Chronos GPU partitioner: a shallow embedding of the partition lifecycle engine

This file embeds the core of the Chronos time-bounded GPU partition manager
(`partitioner.cpp`, `gpu_partition.cpp`, `lock_file.cpp`) as executable Lean
definitions and proves the stated invariants of the admission, release,
expiration-sweep and shutdown paths.

Modelling conventions:
* `cl_ulong` memory counters are modelled as `Nat`.  Under the memory
  conservation invariant every counter stays at or below `totalMemory`,
  so the 64-bit arithmetic of the source never wraps and plain `Nat`
  arithmetic models it exactly.
* `float` memory fractions are modelled as `ℚ`; `totalMemory * fraction`
  (a C++ `cl_ulong * float` multiplication truncated back to `cl_ulong`)
  is modelled as `⌊totalMemory * fraction⌋`.
* `std::chrono::system_clock::time_point` values and second counts are
  modelled as `Int` (seconds); `duration_cast<seconds>(now - startTime)`
  is `now - startTime`.
* The lock directory is an association list from file path to file
  content; atomic exclusive creation (`O_CREAT|O_EXCL`) fails exactly
  when the path is already present.
-/

namespace Chronos

/-! ## Decimal formatting, as produced by `std::stringstream` -/

/-- The character printed for a single decimal digit. -/
def digitChar (d : Nat) : Char := Char.ofNat (48 + d)

/-- Little-endian decimal digits, computed with explicit fuel so that the
kernel can evaluate it (proved equal to `Nat.digits 10` below). -/
def decDigitsAux : Nat → Nat → List Nat
  | 0, _ => []
  | _ + 1, 0 => []
  | fuel + 1, n + 1 => (n + 1) % 10 :: decDigitsAux fuel ((n + 1) / 10)

/-- Little-endian decimal digits of `n`. -/
def decDigitsNat (n : Nat) : List Nat := decDigitsAux n n

/-- Decimal digit characters of `n`, most significant first (empty for 0). -/
def decChars (n : Nat) : List Char := ((decDigitsNat n).map digitChar).reverse

/-- Decimal representation of a natural number, as `operator<<(int)` prints it. -/
def decRepr (n : Nat) : String := if n = 0 then "0" else String.mk (decChars n)

/-- Decimal representation of an `int`, as `operator<<(int)` prints it. -/
def intRepr (i : Int) : String :=
  if i < 0 then "-" ++ decRepr i.natAbs else decRepr i.natAbs

/-- `std::setw w` with `std::setfill('0')` (right adjustment, the default):
the string is preceded by enough `'0'` fill characters to reach width `w`. -/
def zeroPad (w : Nat) (s : String) : String :=
  String.mk (List.replicate (w - s.length) '0') ++ s

/-! ## Lock file path derivation (`LockFile::generateLockFilePath`) -/

/-- `std::round`: round half away from zero. -/
def cppRound (x : ℚ) : Int := if x < 0 then -⌊-x + 1/2⌋ else ⌊x + 1/2⌋

/-- `static_cast<int>(std::round(memoryFraction * 1000))`. -/
def percentMil (f : ℚ) : Int := cppRound (f * 1000)

/-- `LockFile::generateLockFilePath`: `<base>gpu_<deviceIdx>_<percentMil,
zero-padded to width 4>.lock`. -/
def generateLockFilePath (basePath : String) (deviceIdx : Int) (f : ℚ) : String :=
  basePath ++ "gpu_" ++ intRepr deviceIdx ++ "_" ++
    zeroPad 4 (intRepr (percentMil f)) ++ ".lock"

/-! ## The lock directory -/

/-- The shared lock directory: an association list from path to content. -/
abbrev Fs := List (String × String)

/-- Look a path up in the lock directory (the `fileExists`/`readFile`
platform primitives). -/
def fsFind : Fs → String → Option String
  | [], _ => none
  | (p, c) :: rest, q => if p = q then some c else fsFind rest q

/-- `deleteFile`: unlink a path (absence is not an error). -/
def fsDelete (fs : Fs) (p : String) : Fs := fs.filter (fun e => e.1 ≠ p)

/-- `createLockFile`: atomic exclusive create, failing iff the path exists. -/
def fsCreateExclusive (fs : Fs) (p c : String) : Option Fs :=
  match fsFind fs p with
  | some _ => none
  | none => some ((p, c) :: fs)

/-! ## Platform adapter values consumed by one operation -/

/-- The process-wide values supplied by the platform adapter. -/
structure Platform where
  pid : Int
  username : String
  hostname : String
  timeString : String
deriving DecidableEq

/-! ## Lock store operations (`LockFile`) -/

/-- Stand-in for the default C++ float formatting of the `fraction:` line.
No behaviour in the core ever parses this line back, so only its presence
matters; we print the rational exactly. -/
def fracRepr (f : ℚ) : String := intRepr f.num ++ "/" ++ decRepr f.den

/-- The lock file content block written by `LockFile::createLock`. -/
def lockContent (plat : Platform) (deviceIdx : Int) (f : ℚ)
    (partitionId : String) : String :=
  "pid: " ++ intRepr plat.pid ++ "\n" ++
  "user: " ++ plat.username ++ "\n" ++
  "host: " ++ plat.hostname ++ "\n" ++
  "time: " ++ plat.timeString ++ "\n" ++
  "device: " ++ intRepr deviceIdx ++ "\n" ++
  "fraction: " ++ fracRepr f ++ "\n" ++
  "partition: " ++ partitionId ++ "\n"

/-- `LockFile::createLock`: derive the path and create the lock file
atomically; `none` models a `false` return. -/
def createLock (basePath : String) (plat : Platform) (deviceIdx : Int) (f : ℚ)
    (partitionId : String) (fs : Fs) : Option Fs :=
  fsCreateExclusive fs (generateLockFilePath basePath deviceIdx f)
    (lockContent plat deviceIdx f partitionId)

/-- `LockFile::releaseLock`: delete the lock file at the derived path. -/
def releaseLock (basePath : String) (deviceIdx : Int) (f : ℚ) (fs : Fs) : Fs :=
  fsDelete fs (generateLockFilePath basePath deviceIdx f)

/-- `LockFile::lockExists`: file-exists check on the derived path. -/
def lockExists (basePath : String) (deviceIdx : Int) (f : ℚ) (fs : Fs) : Bool :=
  (fsFind fs (generateLockFilePath basePath deviceIdx f)).isSome

/-- `std::getline` splitting, structurally: segments between newline
characters, including a final (possibly empty) segment. -/
def splitLinesL : List Char → List (List Char)
  | [] => [[]]
  | c :: cs =>
    match splitLinesL cs with
    | [] => [[]]
    | h :: t => if c = '\n' then [] :: h :: t else (c :: h) :: t

/-- The lines produced by a `while (std::getline(stream, line))` loop:
`std::getline` does not produce the empty segment after a trailing
newline (it hits end-of-file instead). -/
def cppGetLines (s : String) : List (List Char) :=
  if (splitLinesL s.data).getLast? = some [] then (splitLinesL s.data).dropLast
  else splitLinesL s.data

/-- The 6-character key `line.compare(0, 6, "user: ")` scans for. -/
def ownerKey : List Char := "user: ".data

/-- The scan loop of `LockFile::getLockOwner`: return the remainder of the
first line carrying the `user: ` key, the empty string if none does. -/
def lineScan : List (List Char) → String
  | [] => ""
  | l :: rest => if ownerKey.isPrefixOf l then String.mk (l.drop 6) else lineScan rest

/-- `LockFile::getLockOwner`: empty string when the lock file is absent,
otherwise the line scan over its content. -/
def getLockOwner (basePath : String) (deviceIdx : Int) (f : ℚ) (fs : Fs) : String :=
  match fsFind fs (generateLockFilePath basePath deviceIdx f) with
  | none => ""
  | some content => lineScan (cppGetLines content)

/-! ## Data model (`DeviceInfo`, `GPUPartition`, `ChronosPartitioner::Impl`) -/

/-- A device record; `id` models the opaque `cl_device_id` handle
(used for equality only). -/
structure DeviceInfo where
  id : Nat
  name : String
  totalMemory : Nat
  availableMemory : Nat
deriving DecidableEq

/-- A partition record (`core::GPUPartition`). -/
structure GPUPartition where
  deviceId : Nat
  memoryFraction : ℚ
  duration : Int
  startTime : Int
  active : Bool
  partitionId : String
  processId : Int
  username : String
deriving DecidableEq

/-- The mutable state of `ChronosPartitioner::Impl`, as observed between
guarded operations: the device registry, the partition table, the
partition-id counter and the shared lock directory. -/
structure PartState where
  devices : List DeviceInfo
  partitions : List GPUPartition
  counter : Nat
  fs : Fs
deriving DecidableEq

/-- `cl_ulong requested = device.totalMemory * memoryFraction`: the C++
`cl_ulong * float` product truncated back to an unsigned integer. -/
def reservedMemory (totalMemory : Nat) (f : ℚ) : Nat :=
  (⌊(totalMemory : ℚ) * f⌋).toNat

/-- The id string `generatePartitionId` builds for counter value `n`:
`partition_` followed by `n` zero-padded to 4 digits. -/
def partitionIdString (n : Nat) : String := "partition_" ++ zeroPad 4 (decRepr n)

/-- Model of `ChronosPartitioner::Impl` construction: empty partition
table, freshly enumerated devices, the configured lock directory.  The
partition-id counter is a function-local `static` in
`generatePartitionId`, so it is process-wide: construction does NOT
reset it, and `processCounter` passes in its current process value
(`0` in a fresh process). -/
def managerInit (devs : List DeviceInfo) (fs : Fs) (processCounter : Nat) : PartState :=
  { devices := devs, partitions := [], counter := processCounter, fs := fs }

/-- The partition record inserted by a successful `createPartition`. -/
def newPartition (plat : Platform) (now : Int) (devId : Nat) (f : ℚ)
    (dur : Int) (pid : String) : GPUPartition :=
  { deviceId := devId, memoryFraction := f, duration := dur, startTime := now,
    active := true, partitionId := pid, processId := plat.pid,
    username := plat.username }

/-- `device.availableMemory += freedMemory` in `releasePartitionResources`. -/
def creditDevice (dd : DeviceInfo) (f : ℚ) : DeviceInfo :=
  { dd with availableMemory := dd.availableMemory + reservedMemory dd.totalMemory f }

/-- `device.availableMemory -= requestedMemory` in `createPartition`. -/
def debitDevice (dd : DeviceInfo) (f : ℚ) : DeviceInfo :=
  { dd with availableMemory := dd.availableMemory - reservedMemory dd.totalMemory f }

/-- The device-scan loop of `releasePartitionResources`: credit the first
device whose handle matches the partition's, and report its index (the
value `getDeviceIndex` would return) so the lock file can be deleted. -/
def releaseDevsLoop (p : GPUPartition) : Nat → List DeviceInfo → List DeviceInfo × Option Nat
  | _, [] => ([], none)
  | i, d :: rest =>
    if d.id = p.deviceId then (creditDevice d p.memoryFraction :: rest, some i)
    else
      (d :: (releaseDevsLoop p (i + 1) rest).1, (releaseDevsLoop p (i + 1) rest).2)

/-- `ChronosPartitioner::Impl::releasePartitionResources`: credit the
partition's reserved memory back to its device and delete its lock file
(nothing happens when no device matches the stored handle). -/
def releasePartitionResources (basePath : String) (devs : List DeviceInfo)
    (fs : Fs) (p : GPUPartition) : List DeviceInfo × Fs :=
  match releaseDevsLoop p 0 devs with
  | (devs2, some i) => (devs2, releaseLock basePath (Int.ofNat i) p.memoryFraction fs)
  | (devs2, none) => (devs2, fs)

/-- `ChronosPartitioner::Impl::canAccessGPU`: index validity, memory
availability, then the lock-owner check. -/
def canAccessGPU (basePath : String) (plat : Platform) (devs : List DeviceInfo)
    (fs : Fs) (deviceIdx : Int) (f : ℚ) : Bool :=
  if h : deviceIdx < 0 ∨ (devs.length : Int) ≤ deviceIdx then false
  else if (devs.get ⟨deviceIdx.toNat, by omega⟩).availableMemory <
      reservedMemory (devs.get ⟨deviceIdx.toNat, by omega⟩).totalMemory f then false
  else if lockExists basePath deviceIdx f fs then
    if getLockOwner basePath deviceIdx f fs ≠ plat.username then false else true
  else true

/-- `ChronosPartitioner::Impl::createPartition`: argument validation,
`canAccessGPU`, the (repeated) memory check, id generation, atomic lock
creation, then the decrement-and-insert commit.  Returns the empty
string on every failure path. -/
def createPartition (basePath : String) (plat : Platform) (now : Int)
    (s : PartState) (deviceIdx : Int) (f : ℚ) (durationInSeconds : Int) :
    String × PartState :=
  if h : deviceIdx < 0 ∨ (s.devices.length : Int) ≤ deviceIdx then ("", s)
  else if f ≤ 0 ∨ 1 < f then ("", s)
  else if durationInSeconds ≤ 0 then ("", s)
  else if ¬ canAccessGPU basePath plat s.devices s.fs deviceIdx f then ("", s)
  else if (s.devices.get ⟨deviceIdx.toNat, by omega⟩).availableMemory <
      reservedMemory (s.devices.get ⟨deviceIdx.toNat, by omega⟩).totalMemory f then ("", s)
  else
    match createLock basePath plat deviceIdx f (partitionIdString (s.counter + 1)) s.fs with
    | none => ("", { s with counter := s.counter + 1 })
    | some fs2 =>
      (partitionIdString (s.counter + 1),
       { devices := s.devices.set deviceIdx.toNat
           (debitDevice (s.devices.get ⟨deviceIdx.toNat, by omega⟩) f),
         partitions := s.partitions ++
           [newPartition plat now (s.devices.get ⟨deviceIdx.toNat, by omega⟩).id f
              durationInSeconds (partitionIdString (s.counter + 1))],
         counter := s.counter + 1,
         fs := fs2 })

/-- `GPUPartition::getRemainingTime`: 0 when inactive or expired,
otherwise `duration - elapsed`. -/
def getRemainingTime (now : Int) (p : GPUPartition) : Int :=
  if ¬ p.active then 0
  else if p.duration ≤ now - p.startTime then 0
  else p.duration - (now - p.startTime)

/-- `ChronosPartitioner::Impl::listPartitions`: the snapshots of active
partitions, and (in verbose mode) the `Time remaining` second counts the
listing prints, computed as `duration - elapsed` with no clamping. -/
def listPartitions (s : PartState) (now : Int) (printOutput : Bool) :
    List GPUPartition × List Int :=
  let activeParts := s.partitions.filter (fun p => p.active)
  (activeParts,
   if printOutput then activeParts.map (fun p => p.duration - (now - p.startTime)) else [])

/-- The search loop of `releasePartition`: find the first active partition
with the requested id; refuse if its owner is not the current user,
otherwise run the release procedure and flip it inactive. -/
def releaseLoop (basePath : String) (user : String) (pid : String) :
    List GPUPartition → List DeviceInfo → Fs →
      Bool × List GPUPartition × List DeviceInfo × Fs
  | [], devs, fs => (false, [], devs, fs)
  | p :: rest, devs, fs =>
    if p.partitionId = pid ∧ p.active then
      if p.username ≠ user then (false, p :: rest, devs, fs)
      else
        let r := releasePartitionResources basePath devs fs p
        (true, { p with active := false } :: rest, r.1, r.2)
    else
      let r := releaseLoop basePath user pid rest devs fs
      (r.1, p :: r.2.1, r.2.2.1, r.2.2.2)

/-- `ChronosPartitioner::Impl::releasePartition`. -/
def releasePartition (basePath : String) (plat : Platform) (s : PartState)
    (pid : String) : Bool × PartState :=
  ((releaseLoop basePath plat.username pid s.partitions s.devices s.fs).1,
   { s with
     partitions := (releaseLoop basePath plat.username pid s.partitions s.devices s.fs).2.1,
     devices := (releaseLoop basePath plat.username pid s.partitions s.devices s.fs).2.2.1,
     fs := (releaseLoop basePath plat.username pid s.partitions s.devices s.fs).2.2.2 })

/-- The per-partition pass of one monitor sweep: expire (release resources
and flip inactive) every active partition whose elapsed time reached its
duration. -/
def sweepLoop (basePath : String) (now : Int) :
    List GPUPartition → List DeviceInfo → Fs →
      List GPUPartition × List DeviceInfo × Fs
  | [], devs, fs => ([], devs, fs)
  | p :: rest, devs, fs =>
    if p.active ∧ p.duration ≤ now - p.startTime then
      let r := releasePartitionResources basePath devs fs p
      let q := sweepLoop basePath now rest r.1 r.2
      ({ p with active := false } :: q.1, q.2)
    else
      let q := sweepLoop basePath now rest devs fs
      (p :: q.1, q.2)

/-- One iteration of `ChronosPartitioner::Impl::monitorPartitions` under
the guard: the expiry pass followed by erasure of every inactive
record. -/
def monitorSweep (basePath : String) (now : Int) (s : PartState) : PartState :=
  { s with
    partitions := (sweepLoop basePath now s.partitions s.devices s.fs).1.filter
      (fun p => p.active),
    devices := (sweepLoop basePath now s.partitions s.devices s.fs).2.1,
    fs := (sweepLoop basePath now s.partitions s.devices s.fs).2.2 }

/-- The shutdown pass of `Impl::~Impl` (after the monitor is joined):
apply the release procedure to every still-active partition, then clear
the table. -/
def shutdownLoop (basePath : String) :
    List GPUPartition → List DeviceInfo → Fs → List DeviceInfo × Fs
  | [], devs, fs => (devs, fs)
  | p :: rest, devs, fs =>
    if p.active then
      shutdownLoop basePath rest (releasePartitionResources basePath devs fs p).1
        (releasePartitionResources basePath devs fs p).2
    else shutdownLoop basePath rest devs fs

/-- `ChronosPartitioner::Impl::~Impl`, in-process state part. -/
def shutdown (basePath : String) (s : PartState) : PartState :=
  { s with partitions := [],
           devices := (shutdownLoop basePath s.partitions s.devices s.fs).1,
           fs := (shutdownLoop basePath s.partitions s.devices s.fs).2 }

/-! ## Invariants -/

/-- Sum of the reserved amounts of the active partitions on the device
with handle `deviceId`, computed with that device's `totalMemory`. -/
def reservedSum (totalMemory : Nat) (deviceId : Nat) (ps : List GPUPartition) : Nat :=
  (ps.map (fun p =>
     if p.active ∧ p.deviceId = deviceId then reservedMemory totalMemory p.memoryFraction
     else 0)).sum

/-- Invariant I1 over a device list and a partition table. -/
def memConservedL (devs : List DeviceInfo) (ps : List GPUPartition) : Prop :=
  ∀ d ∈ devs, d.availableMemory + reservedSum d.totalMemory d.id ps = d.totalMemory

/-- Invariant I1 (memory conservation) of a state. -/
def memConserved (s : PartState) : Prop := memConservedL s.devices s.partitions

/-- The device handles enumerated at startup are pairwise distinct. -/
def DevIdsNodup (s : PartState) : Prop :=
  (s.devices.map (fun d => d.id)).Nodup

instance (devs : List DeviceInfo) (ps : List GPUPartition) :
    Decidable (memConservedL devs ps) :=
  List.decidableBAll _ devs

instance (s : PartState) : Decidable (memConserved s) :=
  inferInstanceAs (Decidable (memConservedL s.devices s.partitions))

instance (s : PartState) : Decidable (DevIdsNodup s) :=
  List.nodupDecidable _

/-- The memory check of admission, read off a device list: the requested
amount fits in the indexed device's available memory. -/
def memoryCheckOK (devs : List DeviceInfo) (idx : Nat) (f : ℚ) : Prop :=
  ∀ h : idx < devs.length,
    reservedMemory (devs.get ⟨idx, h⟩).totalMemory f ≤ (devs.get ⟨idx, h⟩).availableMemory

instance (devs : List DeviceInfo) (idx : Nat) (f : ℚ) :
    Decidable (memoryCheckOK devs idx f) :=
  if h : idx < devs.length then
    if hq : reservedMemory (devs.get ⟨idx, h⟩).totalMemory f ≤
        (devs.get ⟨idx, h⟩).availableMemory then
      isTrue (fun _ => hq)
    else isFalse (fun hall => hq (hall h))
  else isTrue (fun hh => absurd hh h)

/-- Inverse of decimal printing, used to show the printed forms are
injective: the numeric value of a digit character. -/
def charVal (c : Char) : Nat := c.toNat - 48

/-- Inverse of decimal printing: the value of a most-significant-first
digit character list. -/
def charsVal (l : List Char) : Nat := Nat.ofDigits 10 (l.reverse.map charVal)

/-- One guarded transition of the partitioner: any `create`, `release`,
monitor sweep or shutdown, with arbitrary arguments and platform
inputs. -/
inductive PartStep (basePath : String) : PartState → PartState → Prop
  | create (plat : Platform) (now : Int) (s : PartState) (deviceIdx : Int)
      (f : ℚ) (dur : Int) :
      PartStep basePath s (createPartition basePath plat now s deviceIdx f dur).2
  | release (plat : Platform) (s : PartState) (pid : String) :
      PartStep basePath s (releasePartition basePath plat s pid).2
  | sweep (now : Int) (s : PartState) :
      PartStep basePath s (monitorSweep basePath now s)
  | shutdownStep (s : PartState) :
      PartStep basePath s (shutdown basePath s)

/-- Zero or more guarded transitions. -/
def PartSteps (basePath : String) : PartState → PartState → Prop :=
  Relation.ReflTransGen (PartStep basePath)

/-! ## Concrete scenario used by the witnesses and counterexamples -/

/-- A concrete single-GPU device registry entry. -/
def dev0 : DeviceInfo := { id := 7, name := "gpu", totalMemory := 1000, availableMemory := 1000 }

/-- Concrete platform adapter values. -/
def plat0 : Platform := { pid := 42, username := "alice", hostname := "h", timeString := "t" }

/-- A concrete active partition whose duration has already elapsed at
time 10 but which the monitor has not yet swept. -/
def pExpired : GPUPartition :=
  { deviceId := 7, memoryFraction := 1/2, duration := 5, startTime := 0,
    active := true, partitionId := "partition_0001", processId := 42,
    username := "alice" }

/-- A concrete state holding `pExpired`. -/
def sExpired : PartState :=
  { devices := [{ dev0 with availableMemory := 500 }], partitions := [pExpired],
    counter := 1, fs := [] }

/-- A lock directory already holding a lock for slot `(0, 1/2)` owned by
the current user (for example a stale lock from a crashed process of the
same user). -/
def fsLocked : Fs :=
  [(generateLockFilePath "" 0 (1/2), lockContent plat0 0 (1/2) "partition_0009")]

/-- A concrete state whose lock directory already holds the slot the next
create will ask for. -/
def sLocked : PartState :=
  { devices := [dev0], partitions := [], counter := 3, fs := fsLocked }

/-- A concrete active partition owned by `alice`. -/
def pAlice : GPUPartition :=
  { deviceId := 7, memoryFraction := 1/2, duration := 100, startTime := 0,
    active := true, partitionId := "partition_0001", processId := 42,
    username := "alice" }

/-- A concrete state holding `pAlice` together with its lock file. -/
def sAlice : PartState :=
  { devices := [{ dev0 with availableMemory := 500 }], partitions := [pAlice],
    counter := 1,
    fs := [(generateLockFilePath "" 0 (1/2), lockContent plat0 0 (1/2) "partition_0001")] }

/-- A concrete active partition owned by `bob`, a different user. -/
def pBob : GPUPartition :=
  { deviceId := 7, memoryFraction := 1/2, duration := 100, startTime := 0,
    active := true, partitionId := "partition_0001", processId := 9,
    username := "bob" }

/-- A concrete state holding `pBob`. -/
def sBob : PartState :=
  { devices := [{ dev0 with availableMemory := 500 }], partitions := [pBob],
    counter := 1, fs := [] }

/-- Bool form of the monitor's expiry test. -/
def partDue (now : Int) (p : GPUPartition) : Bool :=
  p.active && decide (p.duration ≤ now - p.startTime)

/-- Bool form of "active and not yet due". -/
def partKept (now : Int) (p : GPUPartition) : Bool :=
  p.active && ! decide (p.duration ≤ now - p.startTime)

/-! # Theorems -/

/-! ## Decimal printing is injective -/

theorem decDigitsAux_eq : ∀ (fuel n : Nat), n ≤ fuel → decDigitsAux fuel n = Nat.digits 10 n
  | 0, 0, _ => by simp [decDigitsAux]
  | fuel + 1, 0, _ => by simp [decDigitsAux]
  | fuel + 1, n + 1, h => by
    rw [decDigitsAux, Nat.digits_def' (b := 10) (by norm_num) (Nat.succ_pos n)]
    have hlt : (n + 1) / 10 < n + 1 := Nat.div_lt_self (Nat.succ_pos n) (by norm_num)
    rw [decDigitsAux_eq fuel ((n + 1) / 10) (by omega)]

theorem decDigitsNat_eq (n : Nat) : decDigitsNat n = Nat.digits 10 n :=
  decDigitsAux_eq n n (Nat.le_refl n)

theorem charVal_digitChar {d : Nat} (hd : d < 10) : charVal (digitChar d) = d := by
  interval_cases d <;> decide

theorem digitChar_ne_newline {d : Nat} (hd : d < 10) : digitChar d ≠ '\n' := by
  interval_cases d <;> decide

theorem ofDigits_replicate_zero (k : Nat) : Nat.ofDigits 10 (List.replicate k 0) = 0 := by
  induction k with
  | zero => simp [Nat.ofDigits_nil]
  | succ k ih => rw [List.replicate_succ, Nat.ofDigits_cons, ih]

theorem charsVal_pad (k n : Nat) :
    charsVal (List.replicate k '0' ++ (decRepr n).data) = n := by
  unfold charsVal
  rw [List.reverse_append, List.map_append, List.reverse_replicate, List.map_replicate]
  have h0 : charVal '0' = 0 := by decide
  rw [h0]
  by_cases hn : n = 0
  · subst hn
    have : (decRepr 0).data = ['0'] := by decide
    rw [this]
    simp only [List.reverse_cons, List.reverse_nil, List.nil_append, List.map_cons,
      List.map_nil, h0]
    rw [show ([0] : List Nat) = [] ++ [0] from rfl]
    rw [Nat.ofDigits_append]
    simp [Nat.ofDigits_nil, Nat.ofDigits_cons, ofDigits_replicate_zero]
  · have hdata : (decRepr n).data = decChars n := by
      unfold decRepr
      rw [if_neg hn]
    rw [hdata]
    unfold decChars
    rw [List.reverse_reverse, List.map_map]
    have hmap : (decDigitsNat n).map (charVal ∘ digitChar) = Nat.digits 10 n := by
      rw [decDigitsNat_eq]
      have : ∀ d ∈ Nat.digits 10 n, (charVal ∘ digitChar) d = id d := by
        intro d hd
        exact charVal_digitChar (Nat.digits_lt_base (by norm_num) hd)
      rw [List.map_congr_left this, List.map_id]
    rw [hmap, Nat.ofDigits_append, ofDigits_replicate_zero, Nat.ofDigits_digits]
    ring

theorem zeroPad_data (w : Nat) (s : String) :
    (zeroPad w s).data = List.replicate (w - s.length) '0' ++ s.data := by
  unfold zeroPad
  rw [String.data_append]

theorem zeroPad_decRepr_inj {m n : Nat}
    (h : zeroPad 4 (decRepr m) = zeroPad 4 (decRepr n)) : m = n := by
  have hd := congrArg String.data h
  rw [zeroPad_data, zeroPad_data] at hd
  have hm := charsVal_pad (4 - (decRepr m).length) m
  have hn := charsVal_pad (4 - (decRepr n).length) n
  rw [← hm, ← hn, hd]

theorem partitionIdString_inj {m n : Nat}
    (h : partitionIdString m = partitionIdString n) : m = n := by
  have hd := congrArg String.data h
  unfold partitionIdString at hd
  rw [String.data_append, String.data_append] at hd
  have hpad := List.append_cancel_left hd
  apply zeroPad_decRepr_inj
  rw [zeroPad_data, zeroPad_data] at hpad
  have hm := charsVal_pad (4 - (decRepr m).length) m
  have hn := charsVal_pad (4 - (decRepr n).length) n
  have : m = n := by rw [← hm, ← hn, hpad]
  rw [this]

theorem partitionIdString_ne_empty (n : Nat) : partitionIdString n ≠ "" := by
  intro h
  have hd := congrArg String.data h
  unfold partitionIdString at hd
  rw [String.data_append] at hd
  have : "partition_".data = 'p' :: "artition_".data := rfl
  rw [this] at hd
  exact List.cons_ne_nil _ _ hd

/-! ## Lock path collision structure -/

theorem percentMil_nonneg {f : ℚ} (hf : 0 < f) : 0 ≤ percentMil f := by
  unfold percentMil cppRound
  have hx : (0 : ℚ) < f * 1000 := by positivity
  rw [if_neg (by linarith : ¬ f * 1000 < 0)]
  have h2 : ((0 : Int) : ℚ) ≤ f * 1000 + 1/2 := by push_cast; linarith
  exact Int.le_floor.2 h2

theorem intRepr_nonneg {i : Int} (h : 0 ≤ i) : intRepr i = decRepr i.natAbs := by
  unfold intRepr
  rw [if_neg (not_lt.2 h)]

theorem lockPath_eq_iff {base : String} {d : Int} {f1 f2 : ℚ}
    (h1 : 0 < f1) (h2 : 0 < f2) :
    generateLockFilePath base d f1 = generateLockFilePath base d f2 ↔
      percentMil f1 = percentMil f2 := by
  constructor
  · intro h
    have hd := congrArg String.data h
    unfold generateLockFilePath at hd
    simp only [String.data_append, List.append_assoc] at hd
    have h3 := List.append_cancel_left (List.append_cancel_left
      (List.append_cancel_left (List.append_cancel_left hd)))
    have h4 := List.append_cancel_right h3
    rw [zeroPad_data, zeroPad_data, intRepr_nonneg (percentMil_nonneg h1),
      intRepr_nonneg (percentMil_nonneg h2)] at h4
    have hm := charsVal_pad (4 - (decRepr (percentMil f1).natAbs).length) (percentMil f1).natAbs
    have hn := charsVal_pad (4 - (decRepr (percentMil f2).natAbs).length) (percentMil f2).natAbs
    have habs : (percentMil f1).natAbs = (percentMil f2).natAbs := by
      rw [← hm, ← hn, h4]
    have hp1 := percentMil_nonneg h1
    have hp2 := percentMil_nonneg h2
    omega
  · intro h
    unfold generateLockFilePath
    rw [h]

/-! ## Lock file content and the owner read -/

theorem newline_not_mem_decRepr (n : Nat) : '\n' ∉ (decRepr n).data := by
  unfold decRepr
  split
  · decide
  · intro hmem
    unfold decChars at hmem
    rw [List.mem_reverse] at hmem
    obtain ⟨d, hd, hdc⟩ := List.mem_map.1 hmem
    rw [decDigitsNat_eq] at hd
    exact digitChar_ne_newline (Nat.digits_lt_base (by norm_num) hd) hdc

theorem newline_not_mem_intRepr (i : Int) : '\n' ∉ (intRepr i).data := by
  unfold intRepr
  split
  · rw [String.data_append]
    intro hmem
    rcases List.mem_append.1 hmem with h | h
    · revert h; decide
    · exact newline_not_mem_decRepr _ h
  · exact newline_not_mem_decRepr _

theorem splitLinesL_cons (c : Char) (cs : List Char) :
    splitLinesL (c :: cs) =
      match splitLinesL cs with
      | [] => [[]]
      | h :: t => if c = '\n' then [] :: h :: t else (c :: h) :: t := rfl

theorem splitLinesL_ne_nil (l : List Char) : splitLinesL l ≠ [] := by
  cases l with
  | nil => simp [splitLinesL]
  | cons c cs =>
    rw [splitLinesL_cons]
    cases h : splitLinesL cs with
    | nil => simp
    | cons a b => by_cases hc : c = '\n' <;> simp [hc]

theorem splitLinesL_append_newline (l1 l2 : List Char) (h : '\n' ∉ l1) :
    splitLinesL (l1 ++ '\n' :: l2) = l1 :: splitLinesL l2 := by
  induction l1 with
  | nil =>
    cases hh : splitLinesL l2 with
    | nil => exact absurd hh (splitLinesL_ne_nil l2)
    | cons a b => simp [splitLinesL_cons, hh]
  | cons c cs ih =>
    have hc : c ≠ '\n' := fun hcn => h (hcn ▸ List.mem_cons_self c cs)
    have hcs : '\n' ∉ cs := fun hmem => h (List.mem_cons_of_mem c hmem)
    rw [List.cons_append, splitLinesL_cons, ih hcs]
    simp [hc]

theorem isPrefixOf_append_self (l t : List Char) : l.isPrefixOf (l ++ t) = true := by
  induction l with
  | nil => simp [List.isPrefixOf]
  | cons c cs ih => simp [List.isPrefixOf, ih]

theorem lineScan_no_match (ls : List (List Char))
    (h : ∀ l ∈ ls, ¬ ownerKey.isPrefixOf l = true) : lineScan ls = "" := by
  induction ls with
  | nil => rfl
  | cons l rest ih =>
    unfold lineScan
    rw [if_neg (h l (List.mem_cons_self l rest))]
    exact ih (fun l2 h2 => h l2 (List.mem_cons_of_mem l h2))

theorem lineScan_first_match (l1 : List (List Char)) (l : List Char)
    (l2 : List (List Char)) (h1 : ∀ q ∈ l1, ¬ ownerKey.isPrefixOf q = true)
    (h : ownerKey.isPrefixOf l = true) :
    lineScan (l1 ++ l :: l2) = String.mk (l.drop 6) := by
  induction l1 with
  | nil => simp [lineScan, h]
  | cons q rest ih =>
    rw [List.cons_append]
    unfold lineScan
    rw [if_neg (h1 q (List.mem_cons_self q rest))]
    exact ih (fun q2 h2 => h1 q2 (List.mem_cons_of_mem q h2))

theorem lineScan_cons_cons (A B : List Char) (tail : List (List Char))
    (hA : ¬ ownerKey.isPrefixOf A = true) (hB : ownerKey.isPrefixOf B = true) :
    lineScan (A :: B :: tail) = String.mk (B.drop 6) := by
  unfold lineScan
  rw [if_neg hA]
  unfold lineScan
  rw [if_pos hB]

theorem getLockOwner_lockContent (plat : Platform) (d : Int) (f : ℚ)
    (pid : String) (hu : '\n' ∉ plat.username.data) :
    lineScan (cppGetLines (lockContent plat d f pid)) = plat.username := by
  obtain ⟨C, hcontent⟩ : ∃ C : List Char, (lockContent plat d f pid).data =
      ("pid: ".data ++ (intRepr plat.pid).data) ++ '\n' ::
        (("user: ".data ++ plat.username.data) ++ '\n' :: C) := by
    refine ⟨("host: " ++ plat.hostname ++ "\n" ++ "time: " ++ plat.timeString ++ "\n" ++
      "device: " ++ intRepr d ++ "\n" ++ "fraction: " ++ fracRepr f ++ "\n" ++
      "partition: " ++ pid ++ "\n").data, ?_⟩
    unfold lockContent
    simp only [String.data_append, List.append_assoc]
    simp only [show ("\n" : String).data = ['\n'] from rfl, List.singleton_append,
      List.cons_append, List.append_assoc, List.nil_append]
  have hpid : '\n' ∉ "pid: ".data ++ (intRepr plat.pid).data := by
    intro hmem
    rcases List.mem_append.1 hmem with h | h
    · revert h; decide
    · exact newline_not_mem_intRepr _ h
  have huser : '\n' ∉ "user: ".data ++ plat.username.data := by
    intro hmem
    rcases List.mem_append.1 hmem with h | h
    · revert h; decide
    · exact hu h
  have hpidline : ¬ ownerKey.isPrefixOf ("pid: ".data ++ (intRepr plat.pid).data) = true := by
    show ¬ ('u' :: "ser: ".data).isPrefixOf
      ('p' :: ("id: ".data ++ (intRepr plat.pid).data)) = true
    simp [List.isPrefixOf]
  have huserline : ownerKey.isPrefixOf ("user: ".data ++ plat.username.data) = true :=
    isPrefixOf_append_self _ _
  have hdrop : ("user: ".data ++ plat.username.data).drop 6 = plat.username.data := by
    have h6 : ("user: ".data).length = 6 := rfl
    rw [← h6, List.drop_left]
  unfold cppGetLines
  rw [hcontent, splitLinesL_append_newline _ _ hpid, splitLinesL_append_newline _ _ huser]
  obtain ⟨r0, rtail, hr⟩ : ∃ r0 rtail, splitLinesL C = r0 :: rtail := by
    cases hC : splitLinesL C with
    | nil => exact absurd hC (splitLinesL_ne_nil C)
    | cons a b => exact ⟨a, b, rfl⟩
  rw [hr]
  have hmkuser : String.mk (("user: ".data ++ plat.username.data).drop 6) = plat.username := by
    rw [hdrop]
  split
  · rw [show (("pid: ".data ++ (intRepr plat.pid).data) ::
        (("user: ".data ++ plat.username.data) :: r0 :: rtail)).dropLast =
        ("pid: ".data ++ (intRepr plat.pid).data) ::
          ("user: ".data ++ plat.username.data) :: (r0 :: rtail).dropLast from rfl]
    rw [lineScan_cons_cons _ _ _ hpidline huserline, hmkuser]
  · rw [lineScan_cons_cons _ _ _ hpidline huserline, hmkuser]

/-! ## Memory conservation machinery -/

theorem reservedSum_nil (tm i : Nat) : reservedSum tm i [] = 0 := rfl

theorem reservedSum_cons (tm i : Nat) (p : GPUPartition) (ps : List GPUPartition) :
    reservedSum tm i (p :: ps) =
      (if p.active ∧ p.deviceId = i then reservedMemory tm p.memoryFraction else 0) +
        reservedSum tm i ps := by
  simp [reservedSum]

theorem reservedSum_append (tm i : Nat) (l1 l2 : List GPUPartition) :
    reservedSum tm i (l1 ++ l2) = reservedSum tm i l1 + reservedSum tm i l2 := by
  simp [reservedSum]

theorem releaseDevsLoop_cons (p : GPUPartition) (i : Nat) (dd : DeviceInfo)
    (rest : List DeviceInfo) :
    releaseDevsLoop p i (dd :: rest) =
      if dd.id = p.deviceId then (creditDevice dd p.memoryFraction :: rest, some i)
      else
        (dd :: (releaseDevsLoop p (i + 1) rest).1, (releaseDevsLoop p (i + 1) rest).2) := by
  rw [releaseDevsLoop]

theorem releaseDevsLoop_fst_ids (p : GPUPartition) :
    ∀ (devs : List DeviceInfo) (i : Nat),
      ((releaseDevsLoop p i devs).1).map (fun d => d.id) = devs.map (fun d => d.id)
  | [], _ => rfl
  | dd :: rest, i => by
    rw [releaseDevsLoop_cons]
    by_cases hdd : dd.id = p.deviceId
    · rw [if_pos hdd]; simp [creditDevice]
    · rw [if_neg hdd]
      simp only [List.map_cons]
      rw [releaseDevsLoop_fst_ids p rest (i + 1)]

theorem releasePartitionResources_fst (base : String) (devs : List DeviceInfo)
    (fs : Fs) (p : GPUPartition) :
    (releasePartitionResources base devs fs p).1 = (releaseDevsLoop p 0 devs).1 := by
  unfold releasePartitionResources
  cases h : releaseDevsLoop p 0 devs with
  | mk a b => cases b <;> simp

theorem releaseRes_ids (base : String) (devs : List DeviceInfo) (fs : Fs)
    (p : GPUPartition) :
    ((releasePartitionResources base devs fs p).1).map (fun d => d.id) =
      devs.map (fun d => d.id) := by
  rw [releasePartitionResources_fst, releaseDevsLoop_fst_ids]

theorem memConservedL_release_mid :
    ∀ (devs : List DeviceInfo) (i : Nat) (p : GPUPartition)
      (ps1 ps2 : List GPUPartition),
      (devs.map fun d => d.id).Nodup → p.active = true →
      memConservedL devs (ps1 ++ p :: ps2) →
      memConservedL (releaseDevsLoop p i devs).1 (ps1 ++ ps2)
  | [], _, _, _, _, _, _, _ => fun d hd => absurd hd (List.not_mem_nil d)
  | dd :: rest, i, p, ps1, ps2, hnd, hact, hc => by
    rw [releaseDevsLoop_cons]
    by_cases hdd : dd.id = p.deviceId
    · rw [if_pos hdd]
      intro d' hd'
      rcases List.mem_cons.1 hd' with rfl | hmem
      · show dd.availableMemory + reservedMemory dd.totalMemory p.memoryFraction +
          reservedSum dd.totalMemory dd.id (ps1 ++ ps2) = dd.totalMemory
        have hc0 := hc dd (List.mem_cons_self _ _)
        rw [reservedSum_append, reservedSum_cons,
          if_pos (⟨hact, hdd.symm⟩ : p.active = true ∧ p.deviceId = dd.id)] at hc0
        rw [reservedSum_append]
        omega
      · have hne : d'.id ≠ p.deviceId := by
          intro he
          have hnotin : dd.id ∉ rest.map (fun d => d.id) := (List.nodup_cons.1 hnd).1
          exact hnotin (by
            rw [hdd, ← he]
            exact List.mem_map_of_mem _ hmem)
        have hc0 := hc d' (List.mem_cons_of_mem _ hmem)
        rw [reservedSum_append, reservedSum_cons,
          if_neg (fun hh : p.active = true ∧ p.deviceId = d'.id => hne hh.2.symm)] at hc0
        rw [reservedSum_append]
        omega
    · rw [if_neg hdd]
      intro d' hd'
      rcases List.mem_cons.1 hd' with rfl | hmem
      · have hc0 := hc d' (List.mem_cons_self _ _)
        rw [reservedSum_append, reservedSum_cons,
          if_neg (fun hh : p.active = true ∧ p.deviceId = d'.id => hdd hh.2.symm)] at hc0
        rw [reservedSum_append]
        omega
      · exact memConservedL_release_mid rest (i + 1) p ps1 ps2
          (List.nodup_cons.1 hnd).2 hact
          (fun d hd => hc d (List.mem_cons_of_mem _ hd)) d' hmem

theorem memConservedL_release_res (base : String) (fs : Fs)
    (devs : List DeviceInfo) (p : GPUPartition) (ps1 ps2 : List GPUPartition)
    (hnd : (devs.map fun d => d.id).Nodup) (hact : p.active = true)
    (hc : memConservedL devs (ps1 ++ p :: ps2)) :
    memConservedL (releasePartitionResources base devs fs p).1 (ps1 ++ ps2) := by
  rw [releasePartitionResources_fst]
  exact memConservedL_release_mid devs 0 p ps1 ps2 hnd hact hc

theorem memConservedL_insert_inactive {p : GPUPartition} (hp : ¬ p.active = true)
    (devs : List DeviceInfo) (ps1 ps2 : List GPUPartition)
    (hc : memConservedL devs (ps1 ++ ps2)) :
    memConservedL devs (ps1 ++ p :: ps2) := by
  intro d hd
  have hc0 := hc d hd
  rw [reservedSum_append] at hc0
  rw [reservedSum_append, reservedSum_cons,
    if_neg (fun hh : p.active = true ∧ p.deviceId = d.id => hp hh.1)]
  omega

theorem memConservedL_create :
    ∀ (devs : List DeviceInfo) (idx : Nat) (hb : idx < devs.length)
      (ps : List GPUPartition) (p : GPUPartition) (dv : DeviceInfo),
      dv = devs.get ⟨idx, hb⟩ →
      (devs.map fun d => d.id).Nodup →
      memConservedL devs ps →
      p.active = true →
      p.deviceId = dv.id →
      reservedMemory dv.totalMemory p.memoryFraction ≤ dv.availableMemory →
      memConservedL
        (devs.set idx { dv with availableMemory :=
          dv.availableMemory - reservedMemory dv.totalMemory p.memoryFraction })
        (ps ++ [p])
  | [], idx, hb, _, _, _, _, _, _, _, _, _ => absurd hb (by simp)
  | dd :: rest, 0, hb, ps, p, dv, hv, hnd, hc, hact, hdev, hreq => by
    have hv2 : dv = dd := hv
    subst hv2
    intro d' hd'
    rcases List.mem_cons.1 hd' with rfl | hmem
    · show dv.availableMemory - reservedMemory dv.totalMemory p.memoryFraction +
        reservedSum dv.totalMemory dv.id (ps ++ [p]) = dv.totalMemory
      have hc0 := hc dv (List.mem_cons_self _ _)
      rw [reservedSum_append, reservedSum_cons,
        if_pos (⟨hact, hdev⟩ : p.active = true ∧ p.deviceId = dv.id), reservedSum_nil]
      omega
    · have hne : p.deviceId ≠ d'.id := by
        intro he
        have hnotin : dv.id ∉ rest.map (fun d => d.id) := (List.nodup_cons.1 hnd).1
        exact hnotin (by
          rw [show dv.id = d'.id from hdev ▸ he]
          exact List.mem_map_of_mem _ hmem)
      have hc0 := hc d' (List.mem_cons_of_mem _ hmem)
      rw [reservedSum_append, reservedSum_cons,
        if_neg (fun hh : p.active = true ∧ p.deviceId = d'.id => hne hh.2), reservedSum_nil]
      omega
  | dd :: rest, idx + 1, hb, ps, p, dv, hv, hnd, hc, hact, hdev, hreq => by
    have hb2 : idx < rest.length := by
      have := hb
      simp only [List.length_cons] at this
      omega
    have hv2 : dv = rest.get ⟨idx, hb2⟩ := hv
    intro d' hd'
    rcases List.mem_cons.1 hd' with rfl | hmem
    · have hget : (rest.get ⟨idx, hb2⟩) ∈ rest := List.get_mem rest idx hb2
      have hne : p.deviceId ≠ d'.id := by
        intro he
        have hnotin : d'.id ∉ rest.map (fun d => d.id) := (List.nodup_cons.1 hnd).1
        exact hnotin (by
          rw [show d'.id = (rest.get ⟨idx, hb2⟩).id from by rw [← he, hdev, hv2]]
          exact List.mem_map_of_mem _ hget)
      have hc0 := hc d' (List.mem_cons_self _ _)
      rw [reservedSum_append, reservedSum_cons,
        if_neg (fun hh : p.active = true ∧ p.deviceId = d'.id => hne hh.2), reservedSum_nil]
      omega
    · exact memConservedL_create rest idx hb2 ps p dv hv2 (List.nodup_cons.1 hnd).2
        (fun d hd => hc d (List.mem_cons_of_mem _ hd)) hact hdev hreq d' hmem

theorem memConservedL_foldl_release (base : String) :
    ∀ (due keep : List GPUPartition) (devs : List DeviceInfo) (fs : Fs),
      (devs.map fun d => d.id).Nodup →
      (∀ p ∈ due, p.active = true) →
      memConservedL devs (due ++ keep) →
      memConservedL
        (due.foldl (fun a p => releasePartitionResources base a.1 a.2 p) (devs, fs)).1 keep
  | [], keep, devs, fs, _, _, hc => by
    simpa using hc
  | p :: rest, keep, devs, fs, hnd, hact, hc => by
    rw [List.foldl_cons]
    have h1 : memConservedL (releasePartitionResources base devs fs p).1 (rest ++ keep) :=
      memConservedL_release_res base fs devs p [] (rest ++ keep) hnd
        (hact p (List.mem_cons_self _ _)) (by simpa using hc)
    have h2 : (((releasePartitionResources base devs fs p).1).map fun d => d.id).Nodup := by
      rw [releaseRes_ids]; exact hnd
    exact memConservedL_foldl_release base rest keep
      (releasePartitionResources base devs fs p).1
      (releasePartitionResources base devs fs p).2
      h2 (fun q hq => hact q (List.mem_cons_of_mem _ hq)) h1

theorem reservedSum_due_split (tm i : Nat) (now : Int) :
    ∀ ps : List GPUPartition,
      reservedSum tm i ps =
        reservedSum tm i (ps.filter (partDue now)) +
          reservedSum tm i (ps.filter (partKept now))
  | [] => rfl
  | p :: rest => by
    rw [reservedSum_cons]
    by_cases hact : p.active = true
    · by_cases hdue : p.duration ≤ now - p.startTime
      · rw [show (p :: rest).filter (partDue now) = p :: rest.filter (partDue now) from by
            simp [List.filter_cons, partDue, hact, hdue],
          show (p :: rest).filter (partKept now) = rest.filter (partKept now) from by
            simp [List.filter_cons, partKept, hact, hdue],
          reservedSum_cons, reservedSum_due_split tm i now rest]
        omega
      · rw [show (p :: rest).filter (partDue now) = rest.filter (partDue now) from by
            simp [List.filter_cons, partDue, hact, hdue],
          show (p :: rest).filter (partKept now) = p :: rest.filter (partKept now) from by
            simp [List.filter_cons, partKept, hact, hdue],
          reservedSum_cons, reservedSum_due_split tm i now rest]
        omega
    · have hf : p.active = false := by
        revert hact; cases p.active <;> simp
      rw [show (p :: rest).filter (partDue now) = rest.filter (partDue now) from by
          simp [List.filter_cons, partDue, hf],
        show (p :: rest).filter (partKept now) = rest.filter (partKept now) from by
          simp [List.filter_cons, partKept, hf],
        if_neg (fun hh : p.active = true ∧ p.deviceId = i => hact hh.1),
        reservedSum_due_split tm i now rest]
      omega

/-! ## Admission characterization -/

theorem canAccessGPU_true_elim {base : String} {plat : Platform}
    {devs : List DeviceInfo} {fs : Fs} {d : Int} {f : ℚ}
    (h : canAccessGPU base plat devs fs d f = true) :
    ∃ hb : d.toNat < devs.length, 0 ≤ d ∧
      reservedMemory (devs.get ⟨d.toNat, hb⟩).totalMemory f ≤
        (devs.get ⟨d.toNat, hb⟩).availableMemory := by
  unfold canAccessGPU at h
  by_cases hg : d < 0 ∨ (devs.length : Int) ≤ d
  · rw [dif_pos hg] at h
    simp at h
  · rw [dif_neg hg] at h
    push_neg at hg
    have hb : d.toNat < devs.length := by omega
    refine ⟨hb, hg.1, ?_⟩
    by_contra h2
    rw [if_pos (not_le.1 h2)] at h
    simp at h

theorem createPartition_of_guards {base : String} {plat : Platform} {now : Int}
    {s : PartState} {d : Int} {f : ℚ} {dur : Int}
    (hg : ¬ (d < 0 ∨ (s.devices.length : Int) ≤ d))
    (hf : ¬ (f ≤ 0 ∨ 1 < f)) (hdur : ¬ dur ≤ 0)
    (hacc : canAccessGPU base plat s.devices s.fs d f = true) :
    createPartition base plat now s d f dur =
      match createLock base plat d f (partitionIdString (s.counter + 1)) s.fs with
      | none => ("", { s with counter := s.counter + 1 })
      | some fs2 =>
        (partitionIdString (s.counter + 1),
         { devices := s.devices.set d.toNat
             (debitDevice (s.devices.get ⟨d.toNat, by omega⟩) f),
           partitions := s.partitions ++
             [newPartition plat now (s.devices.get ⟨d.toNat, by omega⟩).id f dur
                (partitionIdString (s.counter + 1))],
           counter := s.counter + 1,
           fs := fs2 }) := by
  obtain ⟨hb, _, hmem⟩ := canAccessGPU_true_elim hacc
  unfold createPartition
  rw [dif_neg hg, if_neg hf, if_neg hdur, if_neg (fun hc => hc hacc),
    if_neg (not_lt.2 hmem)]

theorem createPartition_cases (base : String) (plat : Platform) (now : Int)
    (s : PartState) (d : Int) (f : ℚ) (dur : Int) :
    createPartition base plat now s d f dur = ("", s) ∨
    createPartition base plat now s d f dur = ("", { s with counter := s.counter + 1 }) ∨
    (∃ hb : d.toNat < s.devices.length,
      0 ≤ d ∧ (0 < f ∧ f ≤ 1) ∧ 0 < dur ∧
      canAccessGPU base plat s.devices s.fs d f = true ∧
      reservedMemory (s.devices.get ⟨d.toNat, hb⟩).totalMemory f ≤
        (s.devices.get ⟨d.toNat, hb⟩).availableMemory ∧
      fsFind s.fs (generateLockFilePath base d f) = none ∧
      createPartition base plat now s d f dur =
        (partitionIdString (s.counter + 1),
         { devices := s.devices.set d.toNat
             (debitDevice (s.devices.get ⟨d.toNat, hb⟩) f),
           partitions := s.partitions ++
             [newPartition plat now (s.devices.get ⟨d.toNat, hb⟩).id f dur
                (partitionIdString (s.counter + 1))],
           counter := s.counter + 1,
           fs := (generateLockFilePath base d f,
                  lockContent plat d f (partitionIdString (s.counter + 1))) :: s.fs })) := by
  by_cases h1 : d < 0 ∨ (s.devices.length : Int) ≤ d
  · left; unfold createPartition; rw [dif_pos h1]
  by_cases h2 : f ≤ 0 ∨ 1 < f
  · left; unfold createPartition; rw [dif_neg h1, if_pos h2]
  by_cases h3 : dur ≤ 0
  · left; unfold createPartition; rw [dif_neg h1, if_neg h2, if_pos h3]
  by_cases h4 : canAccessGPU base plat s.devices s.fs d f = true
  · obtain ⟨hb, _, hmem⟩ := canAccessGPU_true_elim h4
    rw [createPartition_of_guards h1 h2 h3 h4]
    unfold createLock fsCreateExclusive
    cases hlk : fsFind s.fs (generateLockFilePath base d f) with
    | some c => right; left; rfl
    | none =>
      right; right
      exact ⟨hb, by omega, by push_neg at h2; exact h2, by omega, h4, hmem, rfl, rfl⟩
  · left; unfold createPartition; rw [dif_neg h1, if_neg h2, if_neg h3, if_pos h4]

theorem createPartition_counter (base : String) (plat : Platform) (now : Int)
    (s : PartState) (d : Int) (f : ℚ) (dur : Int) :
    (createPartition base plat now s d f dur).2.counter = s.counter ∨
    (createPartition base plat now s d f dur).2.counter = s.counter + 1 := by
  rcases createPartition_cases base plat now s d f dur with h | h | ⟨hb, _, _, _, _, _, _, h⟩
  · left; rw [h]
  · right; rw [h]
  · right; rw [h]

theorem createPartition_success_eq {base : String} {plat : Platform} {now : Int}
    {s : PartState} {d : Int} {f : ℚ} {dur : Int}
    (h : (createPartition base plat now s d f dur).1 ≠ "") :
    ∃ hb : d.toNat < s.devices.length,
      0 ≤ d ∧ (0 < f ∧ f ≤ 1) ∧ 0 < dur ∧
      canAccessGPU base plat s.devices s.fs d f = true ∧
      reservedMemory (s.devices.get ⟨d.toNat, hb⟩).totalMemory f ≤
        (s.devices.get ⟨d.toNat, hb⟩).availableMemory ∧
      fsFind s.fs (generateLockFilePath base d f) = none ∧
      createPartition base plat now s d f dur =
        (partitionIdString (s.counter + 1),
         { devices := s.devices.set d.toNat
             (debitDevice (s.devices.get ⟨d.toNat, hb⟩) f),
           partitions := s.partitions ++
             [newPartition plat now (s.devices.get ⟨d.toNat, hb⟩).id f dur
                (partitionIdString (s.counter + 1))],
           counter := s.counter + 1,
           fs := (generateLockFilePath base d f,
                  lockContent plat d f (partitionIdString (s.counter + 1))) :: s.fs }) := by
  rcases createPartition_cases base plat now s d f dur with hcase | hcase | hres
  · exact absurd (by rw [hcase]) h
  · exact absurd (by rw [hcase]) h
  · exact hres

/-! ## Release loop characterization -/

theorem releaseLoop_cons (base user pid : String) (p : GPUPartition)
    (rest : List GPUPartition) (devs : List DeviceInfo) (fs : Fs) :
    releaseLoop base user pid (p :: rest) devs fs =
      if p.partitionId = pid ∧ p.active = true then
        if p.username ≠ user then (false, p :: rest, devs, fs)
        else
          (true, { p with active := false } :: rest,
           (releasePartitionResources base devs fs p).1,
           (releasePartitionResources base devs fs p).2)
      else
        ((releaseLoop base user pid rest devs fs).1,
         p :: (releaseLoop base user pid rest devs fs).2.1,
         (releaseLoop base user pid rest devs fs).2.2.1,
         (releaseLoop base user pid rest devs fs).2.2.2) := by
  rw [releaseLoop]

theorem releaseLoop_no_active_match (base user pid : String) :
    ∀ (ps : List GPUPartition) (devs : List DeviceInfo) (fs : Fs),
      (∀ p ∈ ps, ¬ (p.partitionId = pid ∧ p.active = true)) →
      releaseLoop base user pid ps devs fs = (false, ps, devs, fs)
  | [], _, _, _ => rfl
  | p :: rest, devs, fs, h => by
    rw [releaseLoop_cons, if_neg (h p (List.mem_cons_self _ _)),
      releaseLoop_no_active_match base user pid rest devs fs
        (fun q hq => h q (List.mem_cons_of_mem _ hq))]

theorem releaseLoop_denied (base user pid : String) :
    ∀ (ps : List GPUPartition) (devs : List DeviceInfo) (fs : Fs),
      (∀ p ∈ ps, p.partitionId = pid → p.active = true → p.username ≠ user) →
      releaseLoop base user pid ps devs fs = (false, ps, devs, fs)
  | [], _, _, _ => rfl
  | p :: rest, devs, fs, h => by
    rw [releaseLoop_cons]
    by_cases hm : p.partitionId = pid ∧ p.active = true
    · rw [if_pos hm, if_pos (h p (List.mem_cons_self _ _) hm.1 hm.2)]
    · rw [if_neg hm,
        releaseLoop_denied base user pid rest devs fs
          (fun q hq => h q (List.mem_cons_of_mem _ hq))]

theorem releaseLoop_success (base user pid : String) :
    ∀ (ps : List GPUPartition) (devs : List DeviceInfo) (fs : Fs)
      (ps2 : List GPUPartition) (devs2 : List DeviceInfo) (fs2 : Fs),
      releaseLoop base user pid ps devs fs = (true, ps2, devs2, fs2) →
      ∃ l1 p l2, ps = l1 ++ p :: l2 ∧
        (∀ q ∈ l1, ¬ (q.partitionId = pid ∧ q.active = true)) ∧
        p.partitionId = pid ∧ p.active = true ∧ p.username = user ∧
        ps2 = l1 ++ { p with active := false } :: l2 ∧
        devs2 = (releasePartitionResources base devs fs p).1 ∧
        fs2 = (releasePartitionResources base devs fs p).2
  | [], devs, fs, ps2, devs2, fs2, h => by
    simp [releaseLoop] at h
  | p :: rest, devs, fs, ps2, devs2, fs2, h => by
    rw [releaseLoop_cons] at h
    by_cases hm : p.partitionId = pid ∧ p.active = true
    · rw [if_pos hm] at h
      by_cases hu : p.username ≠ user
      · rw [if_pos hu] at h
        injection h with hA _
        exact absurd hA (by simp)
      · rw [if_neg hu] at h
        push_neg at hu
        injection h with hA h2
        injection h2 with hB h3
        injection h3 with hC hD
        exact ⟨[], p, rest, rfl, by simp, hm.1, hm.2, hu, hB.symm, hC.symm, hD.symm⟩
    · rw [if_neg hm] at h
      injection h with hA h2
      injection h2 with hB h3
      injection h3 with hC hD
      obtain ⟨l1, q, l2, hsplit, hl1, hq1, hq2, hq3, hps2, hdevs2, hfs2⟩ :=
        releaseLoop_success base user pid rest devs fs
          (releaseLoop base user pid rest devs fs).2.1
          (releaseLoop base user pid rest devs fs).2.2.1
          (releaseLoop base user pid rest devs fs).2.2.2
          (by rw [← hA])
      refine ⟨p :: l1, q, l2, by rw [hsplit, List.cons_append], ?_, hq1, hq2, hq3, ?_, ?_, ?_⟩
      · intro r hr
        rcases List.mem_cons.1 hr with rfl | hmem
        · exact hm
        · exact hl1 r hmem
      · rw [← hB, hps2, List.cons_append]
      · rw [← hC, hdevs2]
      · rw [← hD, hfs2]

/-! ## Sweep characterization -/

theorem sweepLoop_cons (base : String) (now : Int) (p : GPUPartition)
    (rest : List GPUPartition) (devs : List DeviceInfo) (fs : Fs) :
    sweepLoop base now (p :: rest) devs fs =
      if p.active = true ∧ p.duration ≤ now - p.startTime then
        ({ p with active := false } ::
           (sweepLoop base now rest (releasePartitionResources base devs fs p).1
             (releasePartitionResources base devs fs p).2).1,
         (sweepLoop base now rest (releasePartitionResources base devs fs p).1
             (releasePartitionResources base devs fs p).2).2)
      else
        (p :: (sweepLoop base now rest devs fs).1,
         (sweepLoop base now rest devs fs).2) := by
  rw [sweepLoop]

theorem sweepLoop_spec (base : String) (now : Int) :
    ∀ (ps : List GPUPartition) (devs : List DeviceInfo) (fs : Fs),
      sweepLoop base now ps devs fs =
        (ps.map (fun p => if partDue now p then { p with active := false } else p),
         (ps.filter (partDue now)).foldl
           (fun a p => releasePartitionResources base a.1 a.2 p) (devs, fs))
  | [], devs, fs => rfl
  | p :: rest, devs, fs => by
    rw [sweepLoop_cons]
    by_cases hdue : p.active = true ∧ p.duration ≤ now - p.startTime
    · have hb : partDue now p = true := by
        simp [partDue, hdue.1, hdue.2]
      rw [if_pos hdue,
        sweepLoop_spec base now rest (releasePartitionResources base devs fs p).1
          (releasePartitionResources base devs fs p).2]
      simp only [List.map_cons, List.filter_cons, hb, if_pos, List.foldl_cons]
    · have hb : partDue now p = false := by
        unfold partDue
        by_cases hac : p.active = true
        · rw [hac, Bool.true_and]
          exact decide_eq_false (fun hle => hdue ⟨hac, hle⟩)
        · have hf : p.active = false := by
            cases hp : p.active
            · rfl
            · exact absurd hp hac
          rw [hf, Bool.false_and]
      rw [if_neg hdue, sweepLoop_spec base now rest devs fs]
      simp [List.filter_cons, hb]

theorem map_mark_filter_active (now : Int) :
    ∀ ps : List GPUPartition,
      ((ps.map (fun p => if partDue now p then { p with active := false } else p)).filter
        (fun p => p.active)) = ps.filter (partKept now)
  | [] => rfl
  | p :: rest => by
    by_cases hact : p.active = true
    · by_cases hdue : p.duration ≤ now - p.startTime
      · have hd : partDue now p = true := by simp [partDue, hact, hdue]
        have hk : partKept now p = false := by simp [partKept, hact, hdue]
        simp [List.filter_cons, hd, hk, map_mark_filter_active now rest]
      · have hd : partDue now p = false := by simp [partDue, hact, hdue]
        have hk : partKept now p = true := by simp [partKept, hact, hdue]
        simp [List.filter_cons, hd, hk, hact, map_mark_filter_active now rest]
    · have hf : p.active = false := by
        cases hp : p.active
        · rfl
        · exact absurd hp hact
      have hd : partDue now p = false := by simp [partDue, hf]
      have hk : partKept now p = false := by simp [partKept, hf]
      simp [List.filter_cons, hd, hk, hf, map_mark_filter_active now rest]

theorem monitorSweep_spec (base : String) (now : Int) (s : PartState) :
    monitorSweep base now s =
      { devices := ((s.partitions.filter (partDue now)).foldl
          (fun a p => releasePartitionResources base a.1 a.2 p) (s.devices, s.fs)).1,
        partitions := s.partitions.filter (partKept now),
        counter := s.counter,
        fs := ((s.partitions.filter (partDue now)).foldl
          (fun a p => releasePartitionResources base a.1 a.2 p) (s.devices, s.fs)).2 } := by
  unfold monitorSweep
  rw [sweepLoop_spec, map_mark_filter_active]

/-! ## Shutdown and release conservation; counter bookkeeping -/

theorem fsFind_cons_self (p c : String) (fs : Fs) :
    fsFind ((p, c) :: fs) p = some c := by
  simp [fsFind]

theorem memConservedL_uncons_inactive {p : GPUPartition} (hp : ¬ p.active = true)
    (devs : List DeviceInfo) (ps : List GPUPartition)
    (hc : memConservedL devs (p :: ps)) : memConservedL devs ps := by
  intro d hd
  have h0 := hc d hd
  rw [reservedSum_cons, if_neg (fun hh : p.active = true ∧ p.deviceId = d.id => hp hh.1)] at h0
  omega

theorem shutdownLoop_cons (base : String) (p : GPUPartition)
    (rest : List GPUPartition) (devs : List DeviceInfo) (fs : Fs) :
    shutdownLoop base (p :: rest) devs fs =
      if p.active = true then
        shutdownLoop base rest (releasePartitionResources base devs fs p).1
          (releasePartitionResources base devs fs p).2
      else shutdownLoop base rest devs fs := by
  rw [shutdownLoop]

theorem memConservedL_shutdownLoop (base : String) :
    ∀ (ps : List GPUPartition) (devs : List DeviceInfo) (fs : Fs),
      (devs.map fun d => d.id).Nodup → memConservedL devs ps →
      memConservedL (shutdownLoop base ps devs fs).1 []
  | [], devs, fs, _, hc => hc
  | p :: rest, devs, fs, hnd, hc => by
    rw [shutdownLoop_cons]
    by_cases hact : p.active = true
    · rw [if_pos hact]
      exact memConservedL_shutdownLoop base rest _ _
        (by rw [releaseRes_ids]; exact hnd)
        (memConservedL_release_res base fs devs p [] rest hnd hact
          (by simpa using hc))
    · rw [if_neg hact]
      exact memConservedL_shutdownLoop base rest devs fs hnd
        (memConservedL_uncons_inactive hact devs rest hc)

theorem releaseLoop_conserved (base user pid : String) :
    ∀ (ps l1 : List GPUPartition) (devs : List DeviceInfo) (fs : Fs),
      (devs.map fun d => d.id).Nodup →
      memConservedL devs (l1 ++ ps) →
      memConservedL (releaseLoop base user pid ps devs fs).2.2.1
        (l1 ++ (releaseLoop base user pid ps devs fs).2.1)
  | [], l1, devs, fs, _, hc => hc
  | p :: rest, l1, devs, fs, hnd, hc => by
    rw [releaseLoop_cons]
    by_cases hm : p.partitionId = pid ∧ p.active = true
    · rw [if_pos hm]
      by_cases hu : p.username ≠ user
      · rw [if_pos hu]
        exact hc
      · rw [if_neg hu]
        have h1 : memConservedL (releasePartitionResources base devs fs p).1 (l1 ++ rest) :=
          memConservedL_release_res base fs devs p l1 rest hnd hm.2 hc
        exact memConservedL_insert_inactive (by simp) _ l1 rest h1
    · rw [if_neg hm]
      have hrec := releaseLoop_conserved base user pid rest (l1 ++ [p]) devs fs hnd
        (by simpa [List.append_assoc] using hc)
      simpa [List.append_assoc] using hrec

theorem releasePartition_counter (base : String) (plat : Platform)
    (s : PartState) (pid : String) :
    (releasePartition base plat s pid).2.counter = s.counter := rfl

theorem monitorSweep_counter (base : String) (now : Int) (s : PartState) :
    (monitorSweep base now s).counter = s.counter := rfl

theorem shutdown_counter (base : String) (s : PartState) :
    (shutdown base s).counter = s.counter := rfl

theorem partStep_counter_le {base : String} {s s2 : PartState}
    (h : PartStep base s s2) : s.counter ≤ s2.counter := by
  cases h with
  | create plat now s d f dur =>
    rcases createPartition_counter base plat now s d f dur with h | h <;> omega
  | release plat s pid => exact le_of_eq (releasePartition_counter base plat s pid).symm
  | sweep now s => exact le_of_eq (monitorSweep_counter base now s).symm
  | shutdownStep s => exact le_of_eq (shutdown_counter base s).symm

theorem partSteps_counter_le {base : String} {s s2 : PartState}
    (h : PartSteps base s s2) : s.counter ≤ s2.counter := by
  induction h with
  | refl => exact Nat.le_refl _
  | tail hab hbc ih => exact Nat.le_trans ih (partStep_counter_le hbc)

/-! ## Claim theorems -/

/-- C1: memory conservation.  For every device,
`availableMemory + Σ ⌊totalMemory * memoryFraction⌋ over active partitions
on the device = totalMemory` holds of a freshly initialized manager and is
preserved by every operation: `create`, `release`, the expiry sweep and
shutdown (device handles are pairwise distinct, as enumeration yields). -/
theorem C1_memory_conservation :
    (∀ (devs : List DeviceInfo) (fs : Fs) (c : Nat),
      (∀ d ∈ devs, d.availableMemory = d.totalMemory) →
      memConserved (managerInit devs fs c)) ∧
    (∀ (base : String) (plat : Platform) (now : Int) (s : PartState)
       (d : Int) (f : ℚ) (dur : Int), DevIdsNodup s → memConserved s →
      memConserved (createPartition base plat now s d f dur).2) ∧
    (∀ (base : String) (plat : Platform) (s : PartState) (pid : String),
      DevIdsNodup s → memConserved s →
      memConserved (releasePartition base plat s pid).2) ∧
    (∀ (base : String) (now : Int) (s : PartState), DevIdsNodup s → memConserved s →
      memConserved (monitorSweep base now s)) ∧
    (∀ (base : String) (s : PartState), DevIdsNodup s → memConserved s →
      memConserved (shutdown base s)) := by
  refine ⟨?_, ?_, ?_, ?_, ?_⟩
  · intro devs fs c hfull d hd
    rw [show (managerInit devs fs c).partitions = [] from rfl, reservedSum_nil,
      hfull d hd]
    omega
  · intro base plat now s d f dur hnd hc
    rcases createPartition_cases base plat now s d f dur with h | h | ⟨hb, _, _, _, _, hmem, _, h⟩
    · rw [h]; exact hc
    · rw [h]; exact hc
    · rw [h]
      refine memConservedL_create s.devices d.toNat hb s.partitions
        (newPartition plat now (s.devices.get ⟨d.toNat, hb⟩).id f dur
          (partitionIdString (s.counter + 1)))
        (s.devices.get ⟨d.toNat, hb⟩) rfl hnd hc rfl rfl ?_
      show reservedMemory (s.devices.get ⟨d.toNat, hb⟩).totalMemory f ≤
        (s.devices.get ⟨d.toNat, hb⟩).availableMemory
      exact hmem
  · intro base plat s pid hnd hc
    have h := releaseLoop_conserved base plat.username pid s.partitions [] s.devices s.fs hnd
      (by simpa using hc)
    simpa using h
  · intro base now s hnd hc
    rw [monitorSweep_spec]
    refine memConservedL_foldl_release base (s.partitions.filter (partDue now))
      (s.partitions.filter (partKept now)) s.devices s.fs hnd ?_ ?_
    · intro p hp
      have := (List.mem_filter.1 hp).2
      unfold partDue at this
      exact (Bool.and_eq_true _ _ ▸ this).1
    · intro d hd
      have h0 := hc d hd
      rw [reservedSum_due_split d.totalMemory d.id now s.partitions] at h0
      rw [reservedSum_append]
      omega
  · intro base s hnd hc
    exact memConservedL_shutdownLoop base s.partitions s.devices s.fs hnd hc

theorem C1_witness :
    memConserved (managerInit [dev0] [] 0) ∧
    memConserved (createPartition "" plat0 0 (managerInit [dev0] [] 0) 0 (1/2) 10).2 ∧
    memConserved (releasePartition "" plat0 sAlice "partition_0001").2 ∧
    memConserved (monitorSweep "" 20 sExpired) ∧
    memConserved (shutdown "" sAlice) :=
  ⟨C1_memory_conservation.1 [dev0] [] 0 (by decide),
   C1_memory_conservation.2.1 "" plat0 0 (managerInit [dev0] [] 0) 0 (1/2) 10
     (by decide) (by decide),
   C1_memory_conservation.2.2.1 "" plat0 sAlice "partition_0001"
     (by decide) (by with_unfolding_all decide),
   C1_memory_conservation.2.2.2.1 "" 20 sExpired
     (by decide) (by with_unfolding_all decide),
   C1_memory_conservation.2.2.2.2 "" sAlice
     (by decide) (by with_unfolding_all decide)⟩

/-- C2: admission atomicity on lock failure.  When a create call passes
argument validation, the memory check and the lock-owner check
(`canAccessGPU`), but the atomic exclusive lock-file creation fails
because the derived path already exists, the call returns the empty
string and changes nothing but the consumed id counter: the device list
(hence `availableMemory`), the partition table and the lock directory
are exactly those of the pre-state. -/
theorem C2_lock_failure_atomicity {base : String} {plat : Platform} {now : Int}
    {s : PartState} {d : Int} {f : ℚ} {dur : Int} {c : String}
    (hg : ¬ (d < 0 ∨ (s.devices.length : Int) ≤ d))
    (hf : ¬ (f ≤ 0 ∨ 1 < f)) (hdur : ¬ dur ≤ 0)
    (hacc : canAccessGPU base plat s.devices s.fs d f = true)
    (hlock : fsFind s.fs (generateLockFilePath base d f) = some c) :
    createPartition base plat now s d f dur = ("", { s with counter := s.counter + 1 }) := by
  rw [createPartition_of_guards hg hf hdur hacc]
  unfold createLock fsCreateExclusive
  rw [hlock]

theorem C2_witness :
    createPartition "" plat0 5 sLocked 0 (1/2) 10 =
      ("", { sLocked with counter := sLocked.counter + 1 }) :=
  C2_lock_failure_atomicity (c := lockContent plat0 0 (1/2) "partition_0009")
    (by decide) (by with_unfolding_all decide) (by decide)
    (by with_unfolding_all decide) (by with_unfolding_all decide)

/-- C3: ownership enforcement on release.  When the partition table holds
an active partition with the requested id whose owner differs from the
current username (and every active record carrying that id is foreign),
`releasePartition` returns `false` and the entire state — partition
table, device counters and lock directory — is unchanged. -/
theorem C3_release_ownership_enforcement (base : String) (plat : Platform)
    (s : PartState) (pid : String)
    (_hex : ∃ p ∈ s.partitions, p.partitionId = pid ∧ p.active = true ∧
      p.username ≠ plat.username)
    (hall : ∀ p ∈ s.partitions, p.partitionId = pid → p.active = true →
      p.username ≠ plat.username) :
    releasePartition base plat s pid = (false, s) := by
  unfold releasePartition
  rw [releaseLoop_denied base plat.username pid s.partitions s.devices s.fs hall]

theorem C3_witness :
    releasePartition "" plat0 sBob "partition_0001" = (false, sBob) :=
  C3_release_ownership_enforcement "" plat0 sBob "partition_0001"
    (by decide) (by decide)

/-- C4: release is NotFound-guarded and idempotent.  If no partition in
the table is both active and carries the requested id, `releasePartition`
returns `false` and leaves the state unchanged; consequently (ids being
unique in the table) a second release of an id just released by its owner
returns `false` and is a no-op. -/
theorem C4_release_notfound_idempotent :
    (∀ (base : String) (plat : Platform) (s : PartState) (pid : String),
      (∀ p ∈ s.partitions, ¬ (p.partitionId = pid ∧ p.active = true)) →
      releasePartition base plat s pid = (false, s)) ∧
    (∀ (base : String) (plat : Platform) (s : PartState) (pid : String) (s2 : PartState),
      (s.partitions.map (fun p => p.partitionId)).Nodup →
      releasePartition base plat s pid = (true, s2) →
      releasePartition base plat s2 pid = (false, s2)) := by
  constructor
  · intro base plat s pid h
    unfold releasePartition
    rw [releaseLoop_no_active_match base plat.username pid s.partitions s.devices s.fs h]
  · intro base plat s pid s2 hnd hrel
    unfold releasePartition at hrel
    injection hrel with hA hB
    obtain ⟨l1, p, l2, hsplit, hl1, hpid, hact, hown, hps2, hdevs2, hfs2⟩ :=
      releaseLoop_success base plat.username pid s.partitions s.devices s.fs
        (releaseLoop base plat.username pid s.partitions s.devices s.fs).2.1
        (releaseLoop base plat.username pid s.partitions s.devices s.fs).2.2.1
        (releaseLoop base plat.username pid s.partitions s.devices s.fs).2.2.2
        (by rw [← hA])
    have hnodup2 : p.partitionId ∉ (l1.map (fun q => q.partitionId)) ++
        (l2.map (fun q => q.partitionId)) := by
      have h1 : (s.partitions.map (fun q => q.partitionId)) =
          (l1.map (fun q => q.partitionId)) ++ p.partitionId ::
            (l2.map (fun q => q.partitionId)) := by
        rw [hsplit, List.map_append, List.map_cons]
      rw [h1] at hnd
      exact (List.nodup_cons.1 ((List.nodup_middle).1 hnd)).1
    have hnomatch : ∀ q ∈ s2.partitions, ¬ (q.partitionId = pid ∧ q.active = true) := by
      have hparts : s2.partitions = l1 ++ { p with active := false } :: l2 := by
        rw [← hB, hps2]
      rw [hparts]
      intro q hq hcontra
      rcases List.mem_append.1 hq with hq1 | hq2
      · exact hnodup2 (List.mem_append.2 (Or.inl
          (by rw [show p.partitionId = q.partitionId from by rw [hpid, hcontra.1]]
              exact List.mem_map_of_mem _ hq1)))
      · rcases List.mem_cons.1 hq2 with rfl | hq3
        · exact Bool.false_ne_true hcontra.2
        · exact hnodup2 (List.mem_append.2 (Or.inr
            (by rw [show p.partitionId = q.partitionId from by rw [hpid, hcontra.1]]
                exact List.mem_map_of_mem _ hq3)))
    unfold releasePartition
    rw [releaseLoop_no_active_match base plat.username pid s2.partitions s2.devices s2.fs
      hnomatch]

set_option maxRecDepth 4000 in
theorem C4_witness :
    releasePartition "" plat0 (managerInit [dev0] [] 0) "partition_0001" =
      (false, managerInit [dev0] [] 0) ∧
    releasePartition "" plat0 (releasePartition "" plat0 sAlice "partition_0001").2
        "partition_0001" =
      (false, (releasePartition "" plat0 sAlice "partition_0001").2) :=
  ⟨C4_release_notfound_idempotent.1 "" plat0 (managerInit [dev0] [] 0) "partition_0001"
     (by decide),
   C4_release_notfound_idempotent.2 "" plat0 sAlice "partition_0001"
     (releasePartition "" plat0 sAlice "partition_0001").2
     (by decide) (by with_unfolding_all decide)⟩

set_option maxRecDepth 4000 in
/-- C5 counterexample: the partition-id counter is a function-local
`static int` in `generatePartitionId`, so it is shared process-wide and a
newly constructed manager does NOT restart it at 1: in a process whose
first manager has already performed one successful create (process
counter 1), a second, freshly constructed manager's first successful
create returns `partition_0002`, not `partition_0001`. -/
theorem C5_counterexample :
    (createPartition "" plat0 0 (managerInit [dev0] [] 0) 0 (1/2) 10).1 =
      "partition_0001" ∧
    (createPartition "" plat0 0 (managerInit [dev0] [] 0) 0 (1/2) 10).2.counter = 1 ∧
    (createPartition "" plat0 5
        (managerInit [dev0]
          (shutdown "" (createPartition "" plat0 0 (managerInit [dev0] [] 0) 0 (1/2) 10).2).fs
          1)
        0 (1/2) 10).1 = "partition_0002" ∧
    "partition_0002" ≠ "partition_0001" := by
  with_unfolding_all decide

/-- C5 (amended): every id returned by a successful create has the form
`partition_` followed by the zero-padded-to-4-digits decimal value of the
id counter after its increment; the counter is consumed monotonically and
is process-wide (a `static` local shared by all manager instances of the
process), starting at 0 in a fresh process, so the first successful
create of the first manager constructed in a fresh process returns
`partition_0001`. -/
theorem C5_partition_id_generation :
    (∀ (base : String) (plat : Platform) (now : Int) (s : PartState)
       (d : Int) (f : ℚ) (dur : Int),
      (createPartition base plat now s d f dur).1 ≠ "" →
      (createPartition base plat now s d f dur).1 = partitionIdString (s.counter + 1) ∧
      (createPartition base plat now s d f dur).2.counter = s.counter + 1) ∧
    (∀ (devs : List DeviceInfo) (fs : Fs), (managerInit devs fs 0).counter = 0) ∧
    (∀ (base : String) (plat : Platform) (now : Int) (s : PartState)
       (d : Int) (f : ℚ) (dur : Int),
      s.counter = 0 →
      (createPartition base plat now s d f dur).1 ≠ "" →
      (createPartition base plat now s d f dur).1 = "partition_0001") := by
  have hmain : ∀ (base : String) (plat : Platform) (now : Int) (s : PartState)
      (d : Int) (f : ℚ) (dur : Int),
      (createPartition base plat now s d f dur).1 ≠ "" →
      (createPartition base plat now s d f dur).1 = partitionIdString (s.counter + 1) ∧
      (createPartition base plat now s d f dur).2.counter = s.counter + 1 := by
    intro base plat now s d f dur h
    obtain ⟨hb, _, _, _, _, _, _, heq⟩ := createPartition_success_eq h
    rw [heq]
    exact ⟨rfl, rfl⟩
  refine ⟨hmain, fun devs fs => rfl, ?_⟩
  intro base plat now s d f dur hc h
  have h1 := (hmain base plat now s d f dur h).1
  rw [h1, hc]
  with_unfolding_all decide

theorem C5_witness :
    (createPartition "" plat0 0 (managerInit [dev0] [] 0) 0 (1/2) 10).1 =
      partitionIdString ((managerInit [dev0] [] 0).counter + 1) ∧
    (createPartition "" plat0 0 (managerInit [dev0] [] 0) 0 (1/2) 10).1 =
      "partition_0001" :=
  ⟨(C5_partition_id_generation.1 "" plat0 0 (managerInit [dev0] [] 0) 0 (1/2) 10
      (by with_unfolding_all decide)).1,
   C5_partition_id_generation.2.2 "" plat0 0 (managerInit [dev0] [] 0) 0 (1/2) 10
     rfl (by with_unfolding_all decide)⟩

/-- C6 counterexample: the verbose listing of `listPartitions` prints
`duration - (now - startTime)` with no clamping, so for an active
partition the monitor has not yet swept (elapsed 10 of duration 5) it
prints -5, not `max 0 (duration - (now - startTime)) = 0`: the
remaining-seconds value produced by list(verbose) can be negative. -/
theorem C6_counterexample :
    pExpired.active = true ∧
    pExpired ∈ (listPartitions sExpired 10 true).1 ∧
    (listPartitions sExpired 10 true).2 = [-5] ∧
    ¬ ((-5 : Int) = max 0 (pExpired.duration - (10 - pExpired.startTime))) := by
  with_unfolding_all decide

/-- C6 (amended): the snapshot method `GPUPartition::getRemainingTime`
computes `max 0 (duration - (now - startTime))` for an active partition
and is never negative; the verbose listing, however, prints the
unclamped `duration - (now - startTime)` for each active partition,
which can be negative for an expired partition the monitor has not yet
swept. -/
theorem C6_list_remaining_time :
    (∀ (now : Int) (p : GPUPartition), p.active = true →
      getRemainingTime now p = max 0 (p.duration - (now - p.startTime))) ∧
    (∀ (now : Int) (p : GPUPartition), 0 ≤ getRemainingTime now p) ∧
    (∀ (s : PartState) (now : Int),
      (listPartitions s now true).2 =
        (listPartitions s now true).1.map (fun p => p.duration - (now - p.startTime))) := by
  refine ⟨?_, ?_, ?_⟩
  · intro now p hact
    unfold getRemainingTime
    rw [if_neg (fun hn : ¬ p.active = true => hn hact)]
    by_cases hd : p.duration ≤ now - p.startTime
    · rw [if_pos hd]
      exact (max_eq_left (by omega)).symm
    · rw [if_neg hd]
      exact (max_eq_right (by omega)).symm
  · intro now p
    unfold getRemainingTime
    by_cases ha : ¬ p.active = true
    · rw [if_pos ha]
    · rw [if_neg ha]
      by_cases hd : p.duration ≤ now - p.startTime
      · rw [if_pos hd]
      · rw [if_neg hd]
        omega
  · intro s now
    rfl

theorem C6_witness :
    getRemainingTime 3 pAlice = max 0 (pAlice.duration - (3 - pAlice.startTime)) ∧
    getRemainingTime 200 pAlice = max 0 (pAlice.duration - (200 - pAlice.startTime)) :=
  ⟨C6_list_remaining_time.1 3 pAlice (by decide),
   C6_list_remaining_time.1 200 pAlice (by decide)⟩

/-- C8: sweep postcondition.  One monitor sweep applies the release
procedure (`releasePartitionResources`: credit `availableMemory`, delete
the lock file) to exactly the partitions that were active with
`elapsed >= duration`, in table order; partitions that are active but not
yet due survive unchanged; and every record with `active = false` is then
removed, so the table at sweep exit contains only active records. -/
theorem C8_sweep_postcondition (base : String) (now : Int) (s : PartState) :
    (monitorSweep base now s).partitions = s.partitions.filter (partKept now) ∧
    ((monitorSweep base now s).devices, (monitorSweep base now s).fs) =
      (s.partitions.filter (partDue now)).foldl
        (fun a p => releasePartitionResources base a.1 a.2 p) (s.devices, s.fs) ∧
    (monitorSweep base now s).counter = s.counter ∧
    ∀ p ∈ (monitorSweep base now s).partitions, p.active = true := by
  rw [monitorSweep_spec]
  refine ⟨rfl, rfl, rfl, ?_⟩
  intro p hp
  have h := (List.mem_filter.1 hp).2
  unfold partKept at h
  exact (Bool.and_eq_true _ _ ▸ h).1

theorem C8_witness :
    (monitorSweep "" 3 sAlice).partitions = sAlice.partitions.filter (partKept 3) ∧
    pAlice.active = true :=
  ⟨(C8_sweep_postcondition "" 3 sAlice).1,
   (C8_sweep_postcondition "" 3 sAlice).2.2.2 pAlice (by with_unfolding_all decide)⟩

/-- C9: lock-owner read contract.  `getLockOwner` returns the remainder
(after the 6-character key, with no whitespace trimming) of the first
line of the lock file that begins with `user: `; it returns the empty
string when the file is absent or no line carries the key; and composed
with `createLock` — which writes `user: <username>` as the second line —
the owner read after a successful create returns exactly the creating
user's name (usernames contain no newline). -/
theorem C9_lock_owner_read :
    (∀ (base : String) (d : Int) (f : ℚ) (fs : Fs),
      fsFind fs (generateLockFilePath base d f) = none →
      getLockOwner base d f fs = "") ∧
    (∀ (base : String) (d : Int) (f : ℚ) (fs : Fs) (content : String),
      fsFind fs (generateLockFilePath base d f) = some content →
      (∀ l ∈ cppGetLines content, ¬ ownerKey.isPrefixOf l = true) →
      getLockOwner base d f fs = "") ∧
    (∀ (base : String) (d : Int) (f : ℚ) (fs : Fs) (content : String)
       (l1 : List (List Char)) (l : List Char) (l2 : List (List Char)),
      fsFind fs (generateLockFilePath base d f) = some content →
      cppGetLines content = l1 ++ l :: l2 →
      (∀ q ∈ l1, ¬ ownerKey.isPrefixOf q = true) →
      ownerKey.isPrefixOf l = true →
      getLockOwner base d f fs = String.mk (l.drop 6)) ∧
    (∀ (base : String) (plat : Platform) (d : Int) (f : ℚ) (pid : String)
       (fs : Fs) (fs2 : Fs),
      createLock base plat d f pid fs = some fs2 →
      '\n' ∉ plat.username.data →
      getLockOwner base d f fs2 = plat.username) := by
  refine ⟨?_, ?_, ?_, ?_⟩
  · intro base d f fs h
    unfold getLockOwner
    rw [h]
  · intro base d f fs content h hno
    unfold getLockOwner
    rw [h]
    exact lineScan_no_match _ hno
  · intro base d f fs content l1 l l2 h hlines hpre hmatch
    unfold getLockOwner
    rw [h]
    show lineScan (cppGetLines content) = String.mk (l.drop 6)
    rw [hlines]
    exact lineScan_first_match l1 l l2 hpre hmatch
  · intro base plat d f pid fs fs2 hcl hu
    unfold createLock fsCreateExclusive at hcl
    cases hfind : fsFind fs (generateLockFilePath base d f) with
    | some c =>
      rw [hfind] at hcl
      exact absurd hcl (by simp)
    | none =>
      rw [hfind] at hcl
      injection hcl with hfs2
      unfold getLockOwner
      rw [← hfs2, fsFind_cons_self]
      exact getLockOwner_lockContent plat d f pid hu

theorem C9_witness :
    getLockOwner "" 0 (1/2) [] = "" ∧
    getLockOwner "" 0 (1/2)
      [(generateLockFilePath "" 0 (1/2), lockContent plat0 0 (1/2) "partition_0001")] =
      "alice" :=
  ⟨C9_lock_owner_read.1 "" 0 (1/2) [] rfl,
   C9_lock_owner_read.2.2.2 "" plat0 0 (1/2) "partition_0001" []
     [(generateLockFilePath "" 0 (1/2), lockContent plat0 0 (1/2) "partition_0001")]
     (by with_unfolding_all decide) (by decide)⟩

/-- C10: the id counter is consumed by every create call that reaches id
generation — including calls that then fail at atomic lock-file creation
— so across any run of operations the counter never decreases, and the
ids of two successful creates (the second issued from any state
reachable from the first's post-state) are distinct, the later one
carrying the strictly larger counter. -/
theorem C10_counter_consumption :
    (∀ (base : String) (plat : Platform) (now : Int) (s : PartState)
       (d : Int) (f : ℚ) (dur : Int),
      ¬ (d < 0 ∨ (s.devices.length : Int) ≤ d) → ¬ (f ≤ 0 ∨ 1 < f) → ¬ dur ≤ 0 →
      canAccessGPU base plat s.devices s.fs d f = true →
      (createPartition base plat now s d f dur).2.counter = s.counter + 1) ∧
    (∀ (base : String) (plat1 plat2 : Platform) (now1 now2 : Int)
       (s1 s2 : PartState) (d1 d2 : Int) (f1 f2 : ℚ) (dur1 dur2 : Int),
      (createPartition base plat1 now1 s1 d1 f1 dur1).1 ≠ "" →
      PartSteps base (createPartition base plat1 now1 s1 d1 f1 dur1).2 s2 →
      (createPartition base plat2 now2 s2 d2 f2 dur2).1 ≠ "" →
      (createPartition base plat1 now1 s1 d1 f1 dur1).1 ≠
        (createPartition base plat2 now2 s2 d2 f2 dur2).1 ∧
      s1.counter + 1 ≤ s2.counter) := by
  constructor
  · intro base plat now s d f dur hg hf hdur hacc
    rw [createPartition_of_guards hg hf hdur hacc]
    cases hlk : createLock base plat d f (partitionIdString (s.counter + 1)) s.fs with
    | none => rfl
    | some fs2 => rfl
  · intro base plat1 plat2 now1 now2 s1 s2 d1 d2 f1 f2 dur1 dur2 h1 hsteps h2
    obtain ⟨_, _, _, _, _, _, _, heq1⟩ := createPartition_success_eq h1
    obtain ⟨_, _, _, _, _, _, _, heq2⟩ := createPartition_success_eq h2
    have hid1 : (createPartition base plat1 now1 s1 d1 f1 dur1).1 =
        partitionIdString (s1.counter + 1) := by rw [heq1]
    have hid2 : (createPartition base plat2 now2 s2 d2 f2 dur2).1 =
        partitionIdString (s2.counter + 1) := by rw [heq2]
    have hc1 : (createPartition base plat1 now1 s1 d1 f1 dur1).2.counter =
        s1.counter + 1 := by rw [heq1]
    have hle := partSteps_counter_le hsteps
    rw [hc1] at hle
    refine ⟨?_, hle⟩
    rw [hid1, hid2]
    intro hcontra
    have := partitionIdString_inj hcontra
    omega

theorem C10_witness :
    (createPartition "" plat0 0 sLocked 0 (1/2) 10).2.counter = sLocked.counter + 1 ∧
    (createPartition "" plat0 0 (managerInit [dev0] [] 0) 0 (1/4) 10).1 ≠
      (createPartition "" plat0 5
        (createPartition "" plat0 0 (managerInit [dev0] [] 0) 0 (1/4) 10).2 0 (1/2) 10).1 :=
  ⟨C10_counter_consumption.1 "" plat0 0 sLocked 0 (1/2) 10
     (by decide) (by with_unfolding_all decide) (by decide)
     (by with_unfolding_all decide),
   (C10_counter_consumption.2 "" plat0 plat0 0 5 (managerInit [dev0] [] 0)
     (createPartition "" plat0 0 (managerInit [dev0] [] 0) 0 (1/4) 10).2
     0 0 (1/4) (1/2) 10 10
     (by with_unfolding_all decide)
     Relation.ReflTransGen.refl
     (by with_unfolding_all decide)).1⟩

/-- C7: lock-slot collision.  With the device index fixed, two memory
fractions in `(0, 1]` derive the same lock-file path iff they round to
the same `percentMil = round(fraction * 1000)`; consequently, after a
successful create on `(d, f1)`, a second create on the same device with
any fraction `f2` in the same `percentMil` slot fails with the
empty-string (Contended) sentinel — leaving devices and partition table
unchanged — even when available memory would suffice. -/
theorem C7_lock_slot_collision :
    (∀ (base : String) (d : Int) (f1 f2 : ℚ), 0 < f1 → f1 ≤ 1 → 0 < f2 → f2 ≤ 1 →
      (generateLockFilePath base d f1 = generateLockFilePath base d f2 ↔
        percentMil f1 = percentMil f2)) ∧
    (∀ (base : String) (plat : Platform) (now1 now2 : Int) (s : PartState)
       (d : Int) (f1 f2 : ℚ) (dur1 dur2 : Int),
      (createPartition base plat now1 s d f1 dur1).1 ≠ "" →
      percentMil f2 = percentMil f1 →
      ¬ (f2 ≤ 0 ∨ 1 < f2) → ¬ dur2 ≤ 0 →
      '\n' ∉ plat.username.data →
      memoryCheckOK (createPartition base plat now1 s d f1 dur1).2.devices d.toNat f2 →
      (createPartition base plat now2 (createPartition base plat now1 s d f1 dur1).2
          d f2 dur2).1 = "" ∧
      (createPartition base plat now2 (createPartition base plat now1 s d f1 dur1).2
          d f2 dur2).2.devices = (createPartition base plat now1 s d f1 dur1).2.devices ∧
      (createPartition base plat now2 (createPartition base plat now1 s d f1 dur1).2
          d f2 dur2).2.partitions =
        (createPartition base plat now1 s d f1 dur1).2.partitions) := by
  constructor
  · intro base d f1 f2 hf1 _ hf2 _
    exact lockPath_eq_iff hf1 hf2
  · intro base plat now1 now2 s d f1 f2 dur1 dur2 h1 hpm hf2 hdur2 hu hmemOK
    obtain ⟨hb1, hd0, _, _, _, _, _, heq1⟩ := createPartition_success_eq h1
    set s1 := (createPartition base plat now1 s d f1 dur1).2 with hs1
    have hpath : generateLockFilePath base d f2 = generateLockFilePath base d f1 := by
      unfold generateLockFilePath
      rw [hpm]
    have hfs1 : s1.fs = (generateLockFilePath base d f1,
        lockContent plat d f1 (partitionIdString (s.counter + 1))) :: s.fs := by
      rw [hs1, heq1]
    have hlen : s1.devices.length = s.devices.length := by
      rw [hs1, heq1]
      exact List.length_set s.devices _ _
    have hg2 : ¬ (d < 0 ∨ (s1.devices.length : Int) ≤ d) := by
      rw [hlen]
      omega
    have hfind : fsFind s1.fs (generateLockFilePath base d f2) =
        some (lockContent plat d f1 (partitionIdString (s.counter + 1))) := by
      rw [hfs1, hpath, fsFind_cons_self]
    have howner : getLockOwner base d f2 s1.fs = plat.username := by
      unfold getLockOwner
      rw [hfind]
      exact getLockOwner_lockContent plat d f1 (partitionIdString (s.counter + 1)) hu
    have hacc2 : canAccessGPU base plat s1.devices s1.fs d f2 = true := by
      unfold canAccessGPU
      rw [dif_neg hg2]
      have hb2 : d.toNat < s1.devices.length := by omega
      rw [if_neg (not_lt.2 (hmemOK hb2))]
      rw [show lockExists base d f2 s1.fs = true from by
        unfold lockExists
        rw [hfind]
        rfl]
      rw [if_pos rfl, howner]
      rw [if_neg (fun hne : plat.username ≠ plat.username => hne rfl)]
    rw [createPartition_of_guards hg2 hf2 hdur2 hacc2]
    unfold createLock fsCreateExclusive
    rw [hfind]
    exact ⟨rfl, rfl, rfl⟩

theorem C7_witness :
    generateLockFilePath "" 0 (1/4) = generateLockFilePath "" 0 (2501/10000) ∧
    (createPartition "" plat0 0 (managerInit [dev0] [] 0) 0 (1/4) 10).1 ≠ "" ∧
    (createPartition "" plat0 5
        (createPartition "" plat0 0 (managerInit [dev0] [] 0) 0 (1/4) 10).2
        0 (2501/10000) 10).1 = "" :=
  ⟨(C7_lock_slot_collision.1 "" 0 (1/4) (2501/10000)
      (by with_unfolding_all decide) (by with_unfolding_all decide)
      (by with_unfolding_all decide) (by with_unfolding_all decide)).mpr
      (by with_unfolding_all decide),
   by with_unfolding_all decide,
   (C7_lock_slot_collision.2 "" plat0 0 5 (managerInit [dev0] [] 0) 0 (1/4)
      (2501/10000) 10 10
      (by with_unfolding_all decide) (by with_unfolding_all decide)
      (by with_unfolding_all decide) (by decide) (by decide)
      (by with_unfolding_all decide)).1⟩

end Chronos

